import Mathlib

/-!
Verification of the irproc IR-spectrum processing tool (src/irproc.py)
against its natural-language specification.

Numeric values are embedded as rationals (exact arithmetic); Python
floats are modelled exactly, so every identity below is the exact-arithmetic
content of the corresponding floating-point computation.
-/

namespace Irproc

/-- Inverted signal `100 - t` elementwise, as computed at irproc.py:152
(`ir_inv = 100.0 - ir_t_raw`) and irproc.py:183 (`100 - ir_t`). -/
def invList (ts : List ℚ) : List ℚ := ts.map (fun t => 100 - t)

/-- `np.max` over a nonempty list (irproc.py:153). The `[]` case is junk
(numpy raises on an empty array); theorems about it carry a nonemptiness
hypothesis. -/
def listMax : List ℚ → ℚ
  | [] => 0
  | [x] => x
  | x :: y :: ys => max x (listMax (y :: ys))

/-- Normalization branch of `process_file` (irproc.py:151-153):
`ir_t = 100 - 100 * ir_inv / np.max(ir_inv)` with `ir_inv = 100 - ir_t_raw`. -/
def normalizeTrans (ts : List ℚ) : List ℚ :=
  ts.map (fun t => 100 - 100 * (100 - t) / listMax (invList ts))

/-- Transmittance produced by `process_file` (irproc.py:151-155): normalized
when the flag is set, the raw values otherwise. -/
def processTrans (normalize : Bool) (ts : List ℚ) : List ℚ :=
  if normalize then normalizeTrans ts else ts

/-- Peak classifier `desc` (irproc.py:160-177). Returns `none` where the
Python code raises `ValueError` (no intensity branch matches). Mirrors the
source exactly: `0 <= trel <= 33` gives `"s"`, `33 < trel < 66` gives `"m"`,
`66 < trel <= 100` gives `"w"`, anything else raises; then `"br"` is appended
when `w > br_w`, and the tags are joined by `sep` inside parentheses. -/
def desc (trel : ℚ) (w : ℚ) (br_w : ℚ) (sep : String) : Option String :=
  match (if 0 ≤ trel ∧ trel ≤ 33 then some ["s"]
         else if 33 < trel ∧ trel < 66 then some ["m"]
         else if 66 < trel ∧ trel ≤ 100 then some ["w"]
         else none) with
  | none => none
  | some res =>
      some ("(" ++ String.intercalate sep (if br_w < w then res ++ ["br"] else res) ++ ")")

/-- Modelled from the spec: the external `scipy.signal.find_peaks` call at
irproc.py:183-185 detects "local maxima of the inverted signal"
(spec sections 4.2 and 9). Interior strict local maxima of `xs`. -/
def localMaxima (xs : List ℚ) : List Nat :=
  (List.range xs.length).filter (fun i =>
    decide (0 < i) && decide (i + 1 < xs.length) &&
    decide (xs.getD (i - 1) 0 < xs.getD i 0) && decide (xs.getD (i + 1) 0 < xs.getD i 0))

/-- Modelled from the spec: index just past the nearest higher-or-equal
neighbor to the left of peak `p` (0 at the signal edge), bounding the left
valley used for prominence. -/
def leftStop (xs : List ℚ) (p : Nat) : Nat :=
  match ((List.range p).filter (fun j => decide (xs.getD p 0 ≤ xs.getD j 0))).getLast? with
  | some j => j + 1
  | none => 0

/-- Modelled from the spec: index of the nearest higher-or-equal neighbor to
the right of peak `p` (`xs.length` at the signal edge), bounding the right
valley used for prominence. -/
def rightStop (xs : List ℚ) (p : Nat) : Nat :=
  match (((List.range (xs.length - (p + 1))).map (fun k => p + 1 + k)).filter
      (fun j => decide (xs.getD p 0 ≤ xs.getD j 0))).head? with
  | some j => j
  | none => xs.length

/-- Minimum of `xs` over index range `[lo, hi)` (junk `xs[lo]` seed when the
range is empty; for detected peaks the valley ranges are nonempty). -/
def rangeMin (xs : List ℚ) (lo hi : Nat) : ℚ :=
  ((List.range (hi - lo)).map (fun k => xs.getD (lo + k) 0)).foldl min (xs.getD lo 0)

/-- Modelled from the spec: prominence of peak `p` — "height above the higher
of its two neighboring valleys, bounded by the plateau/signal edges"
(spec section 4.2, glossary). -/
def prominence (xs : List ℚ) (p : Nat) : ℚ :=
  xs.getD p 0 - max (rangeMin xs (leftStop xs p) p) (rangeMin xs (p + 1) (rightStop xs p))

/-- Modelled from the spec: interpolated left crossing of the half-prominence
height `h` (linear interpolation between the last sample at or below `h` and
its right neighbor). -/
def leftIp (xs : List ℚ) (p : Nat) (h : ℚ) : ℚ :=
  match ((List.range p).filter (fun j => decide (xs.getD j 0 ≤ h))).getLast? with
  | some j => j + (h - xs.getD j 0) / (xs.getD (j + 1) 0 - xs.getD j 0)
  | none => 0

/-- Modelled from the spec: interpolated right crossing of the half-prominence
height `h`. -/
def rightIp (xs : List ℚ) (p : Nat) (h : ℚ) : ℚ :=
  match (((List.range (xs.length - (p + 1))).map (fun k => p + 1 + k)).filter
      (fun j => decide (xs.getD j 0 ≤ h))).head? with
  | some j => j - (h - xs.getD j 0) / (xs.getD (j - 1) 0 - xs.getD j 0)
  | none => (xs.length : ℚ) - 1

/-- Modelled from the spec: "width = interpolated span at half-prominence
height" (spec section 9, glossary FWHM). -/
def widthAt (xs : List ℚ) (p : Nat) (prom : ℚ) : ℚ :=
  rightIp xs p (xs.getD p 0 - prom / 2) - leftIp xs p (xs.getD p 0 - prom / 2)

/-- Candidates whose prominence meets the `prominence` threshold of
`find_peaks`, paired with that prominence, in ascending index order. -/
def promFiltered (xs : List ℚ) (pr : ℚ) : List (Nat × ℚ) :=
  ((localMaxima xs).map (fun i => (i, prominence xs i))).filter
    (fun ip => decide (pr ≤ ip.2))

/-- Candidates additionally meeting the `width` threshold, paired with their
interpolated width, in ascending index order. -/
def widthFiltered (xs : List ℚ) (pr wd : ℚ) : List (Nat × ℚ) :=
  ((promFiltered xs pr).map (fun ip => (ip.1, widthAt xs ip.1 ip.2))).filter
    (fun iw => decide (wd ≤ iw.2))

/-- Insertion step of the priority ordering used for distance exclusion:
greater prominence first, ties broken by lower sample index
(spec section 4.2). -/
def insertByPrio (a : Nat × ℚ) : List (Nat × ℚ) → List (Nat × ℚ)
  | [] => [a]
  | b :: bs =>
      if b.2 < a.2 ∨ (a.2 = b.2 ∧ a.1 ≤ b.1) then a :: b :: bs else b :: insertByPrio a bs

/-- Sort candidates by the distance-exclusion priority. -/
def sortByPrio (l : List (Nat × ℚ)) : List (Nat × ℚ) := l.foldr insertByPrio []

/-- Modelled from the spec: greedy distance exclusion — walk the candidates in
priority order, keeping a candidate only when it is at least `dist` samples
from every already-kept peak ("when two candidates are within `min_distance`
of each other, only the one with greater prominence survives"). -/
def selectPeaks (dist : ℚ) : List (Nat × ℚ) → List Nat → List Nat
  | [], kept => kept
  | ip :: rest, kept =>
      if kept.all (fun k => decide (dist ≤ |(ip.1 : ℚ) - (k : ℚ)|))
      then selectPeaks dist rest (ip.1 :: kept)
      else selectPeaks dist rest kept

/-- Modelled from the spec: the full external `find_peaks` call of
irproc.py:183-185 — local maxima of `xs` filtered by the prominence, width
and distance thresholds, returned as `(index, width)` pairs in ascending
index order (the `peaks` array and `pkinfo["widths"]` of the source). -/
def findPeaks (xs : List ℚ) (pr wd dist : ℚ) : List (Nat × ℚ) :=
  (widthFiltered xs pr wd).filter (fun iw =>
    (selectPeaks dist
      (sortByPrio ((widthFiltered xs pr wd).map (fun iw2 => (iw2.1, prominence xs iw2.1))))
      []).contains iw.1)

/-- Classification loop of `ms_report` (irproc.py:192-194): yield
`(p, desc(ir_t[p], widths[i], br_w))` for each detected peak in order;
`none` when any `desc` call raises. Note the source calls `desc` without a
separator argument, so the default `" "` is always used here. -/
def descPairs (ir_t : List ℚ) (br_w : ℚ) : List (Nat × ℚ) → Option (List (Nat × String))
  | [] => some []
  | pw :: rest =>
      match desc (ir_t.getD pw.1 0) pw.2 br_w " " with
      | none => none
      | some d => (descPairs ir_t br_w rest).map (fun tail => (pw.1, d) :: tail)

/-- `ms_report` (irproc.py:180-194): run the detector on the inverted signal
and classify each peak. The `sep` parameter mirrors the source signature; as
in the source (line 193 omits it when calling `desc`), it is never used. -/
def msReport (ir_t : List ℚ) (prominence width distance br_w : ℚ) (sep : String) :
    Option (List (Nat × String)) :=
  descPairs ir_t br_w (findPeaks (ir_t.map (fun t => 100 - t)) prominence width distance)

/-- Round-half-even of a rational to an integer, the behavior of Python's
`f"{x:.0f}"` formatting used at irproc.py:224 and 230. -/
def roundHalfEven (q : ℚ) : ℤ :=
  if q - ⌊q⌋ < 1 / 2 then ⌊q⌋
  else if 1 / 2 < q - ⌊q⌋ then ⌊q⌋ + 1
  else if ⌊q⌋ % 2 = 0 then ⌊q⌋ else ⌊q⌋ + 1

/-- One report entry `f"{x[p]:.0f} {d}"` (irproc.py:230): wavenumber rounded to
the nearest integer, a space, and the descriptor string `d` (which carries its
parentheses). -/
def reportEntry (ir_w : List ℚ) (pd : Nat × String) : String :=
  toString (roundHalfEven (ir_w.getD pd.1 0)) ++ " " ++ pd.2

/-- Data flow of `generate_report` (irproc.py:197-255), plotting elided.
Line 208 of the source reads `x, y = process_file(fname, normalize=True)`:
the `normalize` parameter is accepted but ignored, and the signal is always
normalized. The detector/classifier run on that signal and each peak becomes
the report entry of irproc.py:230. `none` models a `ValueError` escaping the
loop. -/
def generateReport (ir_w ir_t_raw : List ℚ) (normalize : Bool)
    (prominence width broad_width distance : ℚ) : Option (List String) :=
  (msReport (processTrans true ir_t_raw) prominence width distance broad_width " ").map
    (fun res => res.map (reportEntry ir_w))

/-- The joined report `", ".join(report)` of irproc.py:295. -/
def joinedRep (report : List String) : String := String.intercalate ", " report

/-- The per-file summary line `f"IR (ATR): {_rep}."` of irproc.py:296. -/
def summaryLine (report : List String) : String :=
  "IR (ATR): " ++ joinedRep report ++ "."

/-! ## Helper lemmas -/

/-- The classification loop fails only when some `desc` call on a detected
peak fails. -/
theorem descPairs_none (ir_t : List ℚ) (bw : ℚ) :
    ∀ l : List (Nat × ℚ), descPairs ir_t bw l = none →
      ∃ pw, pw ∈ l ∧ desc (ir_t.getD pw.1 0) pw.2 bw " " = none := by
  intro l
  induction l with
  | nil => intro h; simp [descPairs] at h
  | cons pw rest ih =>
    intro h
    unfold descPairs at h
    cases hd : desc (ir_t.getD pw.1 0) pw.2 bw " " with
    | none => exact ⟨pw, List.mem_cons_self _ _, hd⟩
    | some d =>
      rw [hd] at h
      cases hrest : descPairs ir_t bw rest with
      | none =>
        obtain ⟨pw2, hmem, hpw2⟩ := ih hrest
        exact ⟨pw2, List.mem_cons_of_mem _ hmem, hpw2⟩
      | some tail => rw [hrest] at h; simp at h

/-- Each classified pair of a successful classification loop comes from a
detected peak, keeping its index, and its string is the `desc` output. -/
theorem descPairs_mem (ir_t : List ℚ) (bw : ℚ) :
    ∀ (l : List (Nat × ℚ)) (res : List (Nat × String)), descPairs ir_t bw l = some res →
      ∀ y ∈ res, ∃ pw, pw ∈ l ∧
        desc (ir_t.getD pw.1 0) pw.2 bw " " = some y.2 ∧ y.1 = pw.1 := by
  intro l
  induction l with
  | nil =>
    intro res h y hy
    simp [descPairs] at h
    subst h
    simp at hy
  | cons pw rest ih =>
    intro res h y hy
    unfold descPairs at h
    cases hd : desc (ir_t.getD pw.1 0) pw.2 bw " " with
    | none => rw [hd] at h; simp at h
    | some d =>
      rw [hd] at h
      cases hrest : descPairs ir_t bw rest with
      | none => rw [hrest] at h; simp at h
      | some tail =>
        rw [hrest] at h
        simp only [Option.map_some', Option.some.injEq] at h
        subst h
        rcases List.mem_cons.mp hy with hy | hy
        · exact ⟨pw, List.mem_cons_self _ _, by rw [hy]; exact hd, by rw [hy]⟩
        · obtain ⟨pw2, hmem, h1, h2⟩ := ih tail hrest y hy
          exact ⟨pw2, List.mem_cons_of_mem _ hmem, h1, h2⟩

/-- A successful classification loop preserves the peak indices in order. -/
theorem descPairs_fst (ir_t : List ℚ) (bw : ℚ) :
    ∀ (l : List (Nat × ℚ)) (res : List (Nat × String)), descPairs ir_t bw l = some res →
      res.map Prod.fst = l.map Prod.fst := by
  intro l
  induction l with
  | nil => intro res h; simp [descPairs] at h; subst h; rfl
  | cons pw rest ih =>
    intro res h
    unfold descPairs at h
    cases hd : desc (ir_t.getD pw.1 0) pw.2 bw " " with
    | none => rw [hd] at h; simp at h
    | some d =>
      rw [hd] at h
      cases hrest : descPairs ir_t bw rest with
      | none => rw [hrest] at h; simp at h
      | some tail =>
        rw [hrest] at h
        simp only [Option.map_some', Option.some.injEq] at h
        subst h
        simp [ih tail hrest]

/-- Every string `desc` produces is wrapped in parentheses. -/
theorem desc_shape (t w b : ℚ) (s r : String) (h : desc t w b s = some r) :
    ∃ mid, r = "(" ++ mid ++ ")" := by
  unfold desc at h
  split at h
  · exact absurd h (by simp)
  · exact ⟨_, (Option.some.injEq _ _ ▸ h).symm⟩

/-- The detected peaks are strictly increasing in sample index: local maxima
come from `List.range`, and every later stage is an order-preserving map or
filter. -/
theorem findPeaks_pairwise (xs : List ℚ) (pr wd dist : ℚ) :
    ((findPeaks xs pr wd dist).map Prod.fst).Pairwise (· < ·) := by
  rw [List.pairwise_map]
  unfold findPeaks widthFiltered promFiltered localMaxima
  apply List.Pairwise.filter
  apply List.Pairwise.filter
  rw [List.pairwise_map]
  apply List.Pairwise.filter
  rw [List.pairwise_map]
  exact List.Pairwise.sublist (List.filter_sublist _) (List.pairwise_lt_range _)

/-- `listMax` of a nonempty list is one of its elements. -/
theorem listMax_mem : ∀ l : List ℚ, l ≠ [] → listMax l ∈ l := by
  intro l
  induction l with
  | nil => intro h; exact absurd rfl h
  | cons x rest ih =>
    intro _
    cases rest with
    | nil => simp [listMax]
    | cons y ys =>
      rw [listMax]
      rcases max_choice x (listMax (y :: ys)) with h | h
      · rw [h]; exact List.mem_cons_self _ _
      · rw [h]; exact List.mem_cons_of_mem _ (ih (by simp))

/-- `listMax` commutes with scaling by a nonnegative constant. -/
theorem listMax_map_mul (c : ℚ) (hc : 0 ≤ c) :
    ∀ l : List ℚ, listMax (l.map (fun x => c * x)) = c * listMax l := by
  intro l
  induction l with
  | nil => simp [listMax]
  | cons x rest ih =>
    cases rest with
    | nil => simp [listMax]
    | cons y ys =>
      simp only [List.map_cons] at ih ⊢
      rw [listMax, listMax, ih, mul_max_of_nonneg _ _ hc]

/-- The inverted signal of a normalized spectrum is the original inverted
signal scaled by `100 / maxInverted`. -/
theorem invList_normalizeTrans (ts : List ℚ) :
    invList (normalizeTrans ts)
      = (invList ts).map (fun x => 100 / listMax (invList ts) * x) := by
  simp only [invList, normalizeTrans, List.map_map]
  apply List.map_congr_left
  intro t _
  simp only [Function.comp_apply]
  ring

/-- After normalizing a spectrum with positive maximum inverted absorbance,
the maximum inverted absorbance is exactly 100. -/
theorem listMax_invList_normalizeTrans (ts : List ℚ)
    (h : 0 < listMax (invList ts)) :
    listMax (invList (normalizeTrans ts)) = 100 := by
  rw [invList_normalizeTrans, listMax_map_mul _ (by positivity),
    div_mul_cancel₀ _ (ne_of_gt h)]

/-! ## Claim theorems -/

/-- C1: On the spectrum with raw transmittance `[100,100,50,100,100]` and
normalization disabled, `generate_report` still classifies the dip as strong
(its line reads `"3 (s)"`, from the normalized depth 0), although
`process_file` with normalization disabled passes the raw values through, on
which the same detector and classifier would tag the dip medium (`"(m)"`,
depth 50). So the pipeline does not process the un-normalized signal when
normalization is disabled: `generate_report` hardcodes `normalize=True`. -/
theorem C1_normalize_flag_ignored :
    generateReport [1, 2, 3, 4, 5] [100, 100, 50, 100, 100] false 2 1 100 5
      = some ["3 (s)"] ∧
    processTrans false [100, 100, 50, 100, 100] = [100, 100, 50, 100, 100] ∧
    msReport (processTrans false [100, 100, 50, 100, 100]) 2 1 5 100 " "
      = some [(2, "(m)")] := by
  refine ⟨by with_unfolding_all decide, by with_unfolding_all decide, by with_unfolding_all decide⟩

/-- C2: The classifier's boundary behavior: `t=0`, `t=33` give `"s"`;
`t=33.0001` gives `"m"`; `t=66.0001`, `t=100` give `"w"` — but at `t=66`
`desc` raises `ValueError` (modelled as `none`) instead of returning `"m"`
as the claim states: the medium branch requires `t < 66` strictly and the
weak branch requires `66 < t`. -/
theorem C2_boundary_t66 :
    desc 0 1 100 " " = some "(s)" ∧
    desc 33 1 100 " " = some "(s)" ∧
    desc (33.0001 : ℚ) 1 100 " " = some "(m)" ∧
    desc 66 1 100 " " = none ∧
    desc (66.0001 : ℚ) 1 100 " " = some "(w)" ∧
    desc 100 1 100 " " = some "(w)" := by
  refine ⟨by with_unfolding_all decide, by with_unfolding_all decide, by with_unfolding_all decide, by with_unfolding_all decide, by with_unfolding_all decide, by with_unfolding_all decide⟩

/-- C3: The classifier does not fail exactly on out-of-range inputs: `t=66`
lies inside `[0, 100]` yet `desc` fails on it (the code's `ValueError`),
while negative and above-100 inputs fail as the claim states. -/
theorem C3_in_range_failure :
    (0 : ℚ) ≤ 66 ∧ (66 : ℚ) ≤ 100 ∧
    desc 66 5 100 " " = none ∧
    desc (-0.0001 : ℚ) 5 100 " " = none ∧
    desc (100.0001 : ℚ) 5 100 " " = none := by
  refine ⟨by with_unfolding_all decide, by with_unfolding_all decide, by with_unfolding_all decide, by with_unfolding_all decide, by with_unfolding_all decide⟩

/-- C5: Supplying separator `"-"` to `ms_report` still renders a strong broad
peak as `"(s br)"`: `ms_report` never forwards its `sep` parameter to `desc`
(irproc.py:193), which always receives the default single space — even though
`desc` itself, given `"-"` directly, would produce `"(s-br)"`. -/
theorem C5_sep_dropped :
    msReport [100, 100, 0, 100, 100] 2 1 5 (1 / 2) "-" = some [(2, "(s br)")] ∧
    desc 0 1 (1 / 2) "-" = some "(s-br)" := by
  refine ⟨by with_unfolding_all decide, by with_unfolding_all decide⟩

/-- C10 counterexample: the spectrum `normalizeTrans [101, 102] = [0, -100]`
is an output of the enabled-normalization transform, yet normalizing it again
gives `[50, 0]` — exact arithmetic, and the change is far beyond any
floating-point epsilon. (The input `[101, 102]` has negative maximum inverted
absorbance, so renormalization rescales rather than fixes the output.) -/
theorem C10_counterexample :
    normalizeTrans (normalizeTrans [101, 102]) ≠ normalizeTrans [101, 102] := by
  with_unfolding_all decide

/-- C10 (amended): for a spectrum whose maximum inverted absorbance is
positive, normalization is exactly idempotent in exact arithmetic. -/
theorem C10_amended_idem (ts : List ℚ) (h : 0 < listMax (invList ts)) :
    normalizeTrans (normalizeTrans ts) = normalizeTrans ts := by
  have hM := listMax_invList_normalizeTrans ts h
  conv_lhs => rw [normalizeTrans]
  rw [hM]
  have hid : (fun u : ℚ => 100 - 100 * (100 - u) / 100) = id := by
    funext u
    simp only [id]
    ring
  rw [hid, List.map_id]

/-- C10 witness: the spectrum `[50, 100]` has positive maximum inverted
absorbance, and normalizing it twice equals normalizing it once. -/
theorem C10_amended_idem_witness :
    0 < listMax (invList [50, 100]) ∧
    normalizeTrans (normalizeTrans [50, 100]) = normalizeTrans [50, 100] :=
  ⟨by with_unfolding_all decide, C10_amended_idem [50, 100] (by with_unfolding_all decide)⟩

/-- C4 counterexample: on the spectrum `[100,100,50,100,100]` (wavenumbers
`[1..5]`) the single report line produced by `generate_report` is
`"3 (s)"` — wavenumber, space, and the tags WITH parentheses (irproc.py:230
appends the full `desc` string `d`, not `d[1:-1]`) — not the `"3 s"` the
claim predicts (that parenthesis-free form appears only in the plot label at
irproc.py:224). -/
theorem C4_counterexample :
    generateReport [1, 2, 3, 4, 5] [100, 100, 50, 100, 100] true 2 1 100 5
      = some ["3 (s)"] ∧
    desc 0 1 100 " " = some "(s)" ∧
    "3 (s)" ≠ "3 s" := by
  refine ⟨by with_unfolding_all decide, by with_unfolding_all decide, by decide⟩

/-- C4 (amended): every per-peak report line is the peak's wavenumber rounded
to the nearest integer, a space, and the classification tags WITH parentheses. -/
theorem C4_amended_lines (ir_w ir_t_raw : List ℚ) (nrm : Bool)
    (pr wd bw dist : ℚ) (rep : List String)
    (h : generateReport ir_w ir_t_raw nrm pr wd bw dist = some rep)
    (line : String) (hline : line ∈ rep) :
    ∃ p mid,
      line = toString (roundHalfEven (ir_w.getD p 0)) ++ " " ++ ("(" ++ mid ++ ")") := by
  unfold generateReport at h
  cases hres : msReport (processTrans true ir_t_raw) pr wd dist bw " " with
  | none => rw [hres] at h; simp at h
  | some res =>
    rw [hres] at h
    simp only [Option.map_some', Option.some.injEq] at h
    subst h
    obtain ⟨pd, hpd, hpdline⟩ := List.mem_map.mp hline
    unfold msReport at hres
    obtain ⟨pw, _, hdesc, hfst⟩ :=
      descPairs_mem (processTrans true ir_t_raw) bw _ res hres pd hpd
    obtain ⟨mid, hmid⟩ := desc_shape _ _ _ _ _ hdesc
    exact ⟨pd.1, mid, by rw [← hpdline, reportEntry, hmid]⟩

/-- C4 witness: instantiating the amended line format on the concrete
spectrum whose only report line is `"3 (s)"`. -/
theorem C4_amended_lines_witness :
    ∃ p mid,
      "3 (s)" = toString (roundHalfEven (([1, 2, 3, 4, 5] : List ℚ).getD p 0))
        ++ " " ++ ("(" ++ mid ++ ")") :=
  C4_amended_lines [1, 2, 3, 4, 5] [100, 100, 50, 100, 100] true 2 1 100 5
    ["3 (s)"] (by with_unfolding_all decide) "3 (s)" (by simp)

/-- C6 counterexample: with the negative minimum prominence `-1`, detection
and classification complete normally (the dip at index 2 is reported): no
`InvalidThresholdError` is raised — the source defines no such error and
validates no threshold, at configuration time or later. -/
theorem C6_counterexample :
    msReport [100, 100, 50, 100, 100] (-1) 1 5 100 " " = some [(2, "(m)")] := by
  with_unfolding_all decide

/-- C6 (amended): thresholds — negative or not — are never validated: the
only way the detection-classification pipeline of `ms_report` fails is that
the classifier `desc` fails on some detected peak. -/
theorem C6_amended_thresholds_unchecked (ir_t : List ℚ) (pr wd dist bw : ℚ)
    (sep : String) (h : msReport ir_t pr wd dist bw sep = none) :
    ∃ pw, pw ∈ findPeaks (ir_t.map (fun t => 100 - t)) pr wd dist ∧
      desc (ir_t.getD pw.1 0) pw.2 bw " " = none := by
  exact descPairs_none ir_t bw _ h

/-- C6 witness: the spectrum dipping to transmittance 66 (the classifier's
gap) makes `ms_report` fail, and the failure is a `desc` failure on a
detected peak. -/
theorem C6_amended_thresholds_unchecked_witness :
    ∃ pw, pw ∈ findPeaks (([100, 100, 66, 100, 100] : List ℚ).map (fun t => 100 - t)) 2 1 5 ∧
      desc (([100, 100, 66, 100, 100] : List ℚ).getD pw.1 0) pw.2 100 " " = none :=
  C6_amended_thresholds_unchecked [100, 100, 66, 100, 100] 2 1 5 100 " "
    (by with_unfolding_all decide)

/-- C7: with normalization enabled and a nonempty input whose maximum
inverted absorbance is non-zero, `process_file` outputs elementwise
`100 - 100 * (100 - t) / max(100 - t)`, and some sample attains the maximum
inverted absorbance and has normalized transmittance exactly 0. -/
theorem C7_normalize_formula (ts : List ℚ) (h1 : ts ≠ [])
    (h2 : listMax (invList ts) ≠ 0) :
    processTrans true ts
      = ts.map (fun t => 100 - 100 * (100 - t) / listMax (invList ts)) ∧
    ∃ i, i < ts.length ∧ 100 - ts.getD i 0 = listMax (invList ts) ∧
      (processTrans true ts).getD i 0 = 0 := by
  constructor
  · rfl
  · have hmem : listMax (invList ts) ∈ invList ts :=
      listMax_mem _ (by simp [invList, h1])
    obtain ⟨n, hn⟩ := List.mem_iff_get.mp hmem
    have hlen : (n : Nat) < ts.length := by
      have := n.isLt
      simpa [invList] using this
    have hget : (invList ts).get n = 100 - ts.getD n 0 := by
      simp only [invList, List.get_eq_getElem, List.getElem_map]
      rw [List.getD_eq_getElem ts 0 hlen]
    have hinv : 100 - ts.getD n 0 = listMax (invList ts) := by rw [← hget, hn]
    refine ⟨n, hlen, hinv, ?_⟩
    have hplen : (n : Nat) < (processTrans true ts).length := by
      simpa [processTrans, normalizeTrans] using hlen
    rw [List.getD_eq_getElem _ 0 hplen]
    show (normalizeTrans ts)[(n : Nat)] = 0
    rw [List.getD_eq_getElem ts 0 hlen] at hinv
    simp only [normalizeTrans, List.getElem_map]
    rw [hinv, mul_div_assoc, div_self h2]
    ring

/-- C7 witness: the spectrum `[50, 100]` is nonempty with maximum inverted
absorbance 50 ≠ 0; its normalization satisfies the formula and zeroes the
deepest sample. -/
theorem C7_normalize_formula_witness :
    (([50, 100] : List ℚ) ≠ [] ∧ listMax (invList [50, 100]) ≠ 0) ∧
    (processTrans true [50, 100]
      = ([50, 100] : List ℚ).map
          (fun t => 100 - 100 * (100 - t) / listMax (invList [50, 100])) ∧
     ∃ i, i < ([50, 100] : List ℚ).length ∧
       100 - ([50, 100] : List ℚ).getD i 0 = listMax (invList [50, 100]) ∧
       (processTrans true [50, 100]).getD i 0 = 0) :=
  ⟨⟨by decide, by with_unfolding_all decide⟩,
    C7_normalize_formula [50, 100] (by decide) (by with_unfolding_all decide)⟩

/-- C8: the per-file summary line is exactly `"IR (ATR): "` followed by the
per-peak descriptors joined by comma-space and a trailing period; zero peaks
give `"IR (ATR): ."`, and the concrete one-peak spectrum gives
`"IR (ATR): 3 (s)."`. -/
theorem C8_summary_line :
    (∀ ds : List String,
      summaryLine ds = "IR (ATR): " ++ String.intercalate ", " ds ++ ".") ∧
    summaryLine [] = "IR (ATR): ." ∧
    (generateReport [1, 2, 3, 4, 5] [100, 100, 50, 100, 100] true 200 1 100 5).map
        summaryLine = some "IR (ATR): ." ∧
    (generateReport [1, 2, 3, 4, 5] [100, 100, 50, 100, 100] true 2 1 100 5).map
        summaryLine = some "IR (ATR): 3 (s)." := by
  refine ⟨fun ds => rfl, by decide, by with_unfolding_all decide,
    by with_unfolding_all decide⟩

/-- C9: the detected peaks are strictly increasing in sample index; a
successful classification pass keeps exactly those indices in the same
order, and `generate_report` maps them one-to-one, in order, into report
lines — no re-sorting anywhere. -/
theorem C9_report_order (ir_w ir_t : List ℚ) (nrm : Bool) (pr wd bw dist : ℚ)
    (res : List (Nat × String))
    (h : msReport (processTrans true ir_t) pr wd dist bw " " = some res) :
    (∀ xs : List ℚ, ((findPeaks xs pr wd dist).map Prod.fst).Pairwise (· < ·)) ∧
    (res.map Prod.fst).Pairwise (· < ·) ∧
    generateReport ir_w ir_t nrm pr wd bw dist = some (res.map (reportEntry ir_w)) := by
  refine ⟨fun xs => findPeaks_pairwise xs pr wd dist, ?_, ?_⟩
  · have hfst := descPairs_fst (processTrans true ir_t) bw _ res h
    rw [hfst]
    exact findPeaks_pairwise _ pr wd dist
  · unfold generateReport
    rw [h]
    rfl

/-- C9 witness: on the concrete one-peak spectrum, the classified peak list
is `[(2, "(s)")]`, its index list `[2]` is strictly increasing, and the
report is its in-order image. -/
theorem C9_report_order_witness :
    (∀ xs : List ℚ, ((findPeaks xs 2 1 5).map Prod.fst).Pairwise (· < ·)) ∧
    ((([(2, "(s)")] : List (Nat × String)).map Prod.fst).Pairwise (· < ·)) ∧
    generateReport [1, 2, 3, 4, 5] [100, 100, 50, 100, 100] true 2 1 100 5
      = some (([(2, "(s)")] : List (Nat × String)).map
          (reportEntry [1, 2, 3, 4, 5])) :=
  C9_report_order [1, 2, 3, 4, 5] [100, 100, 50, 100, 100] true 2 1 100 5
    [(2, "(s)")] (by with_unfolding_all decide)

end Irproc
